import Mathlib

/-
Verification development for the rodcal-mcnp repository (rc_m.py, rc-m.py).

The repository has two algorithmic components:
  * the deck templater: find_height / change_height / sep_entries / math
    (rc_m.py lines 159-297; rc-m.py has the variant edit / change /
    req_format / maths), a line-oriented two-state machine that rewrites
    rod-geometry coordinates in an MCNP input deck;
  * the reduction engine: convert_keff_to_rho (rc_m.py lines 309-348) and
    calc_params (rc_m.py lines 459-501), which turn (keff, uncertainty)
    tables into reactivity tables and derived rod parameters.

Lines of a deck are modelled as `List Char` without their terminating
newline, except where a function of the source receives the raw line
including the terminator; those call sites append '\n' explicitly,
mirroring Python's file iteration.  Numeric values are modelled over ℚ
(real-number semantics of the source's float arithmetic); the square roots
of the error-propagation formula live in ℝ.
-/

namespace Rodcal

/-! Section: Tokenizer: sep_entries (rc_m.py lines 269-280; identical to
    req_format in rc-m.py lines 29-41) -/

/--
The loop of sep_entries.  Python:
```text
for i in range(0, len(s)):
    if s[i] != ' ': wrd += s[i]
    else:
        if s[i-1] != ' ':
            output.append(wrd)
            wrd = ''
```
`prev` carries `s[i-1]` and `out` the `output` accumulator; the pair
returned is `(output, wrd)` at loop exit.
-/
def sepLoop : List Char → Char → List Char → List (List Char) → List (List Char) × List Char
  | [], _, wrd, out => (out, wrd)
  | c :: rest, prev, wrd, out =>
      if c ≠ ' ' then sepLoop rest c (wrd ++ [c]) out
      else if prev ≠ ' ' then sepLoop rest c [] (out ++ [wrd])
      else sepLoop rest c wrd out

/--
sep_entries (rc_m.py lines 269-280).  Python prepends a space
(`s = ' ' + s`), so at `i = 0` the read of `s[i-1]` is `s[-1]`, the LAST
character of the padded string; the final word is appended with its last
character removed (`output.append(wrd[:-1])`) and the first collected
entry is discarded (`return output[1:]`).
-/
def sep_entries (s : List Char) : List (List Char) :=
  let s' := ' ' :: s
  let r := sepLoop s' (s'.getLastD ' ') [] []
  ((r.1 ++ [r.2.dropLast]).drop 1)

/-- Accumulator-free form of the sep_entries loop, used to reason about it.
    On the states the loop actually reaches, `prev = ' '` holds exactly when
    `wrd = []`, which lets the `prev` argument be dropped. -/
def runAux : List Char → List Char → List (List Char) × List Char
  | [], wrd => ([], wrd)
  | c :: rest, wrd =>
      if c ≠ ' ' then runAux rest (wrd ++ [c])
      else if wrd ≠ [] then
        let r := runAux rest []
        (wrd :: r.1, r.2)
      else runAux rest []

/-- Reference splitter: maximal runs of non-space characters, splitting on
    the space character only (what sep_entries actually splits on). -/
def spaceSplitAux : List Char → List Char → List (List Char)
  | [], wrd => if wrd = [] then [] else [wrd]
  | c :: rest, wrd =>
      if c ≠ ' ' then spaceSplitAux rest (wrd ++ [c])
      else if wrd = [] then spaceSplitAux rest []
      else wrd :: spaceSplitAux rest []

def spaceSplit (cs : List Char) : List (List Char) := spaceSplitAux cs []

/-- Splitter on runs of arbitrary whitespace, as the spec's words describe
    tokenization ("splits a line into tokens on runs of whitespace"). -/
def wsSplitAux : List Char → List Char → List (List Char)
  | [], wrd => if wrd = [] then [] else [wrd]
  | c :: rest, wrd =>
      if ¬ c.isWhitespace then wsSplitAux rest (wrd ++ [c])
      else if wrd = [] then wsSplitAux rest []
      else wrd :: wsSplitAux rest []

/-- Modelled from the spec's words (section 4.1 Tokenization), for
    comparison with `sep_entries`: split on runs of whitespace, preserving
    token content exactly, excluding only the trailing line terminator from
    the last token. -/
def tokenizeSpec (cs : List Char) : List (List Char) :=
  wsSplitAux (if cs.getLast? = some '\n' then cs.dropLast else cs) []

/-- Python's `sep.join(list)`. -/
def joinSep (sep : List Char) : List (List Char) → List Char
  | [] => []
  | [w] => w
  | w :: ws => w ++ sep ++ joinSep sep ws

/-! Section: Numeric model: Python round, float(), str() for the coordinate rule

    rc_m.py line 55: `cm_per_percent_height = 0.38`; lines 295-297:
    `def math(z_coordinate, height): z_coordinate += height*cm_per_percent_height;
     return str(round(z_coordinate, 5))`.
    rc-m.py lines 44-48: `def maths(n, x): CONST = 4.81488; n += x*CONST;
     return str(round(n, 5))`.
    Python's round is round-half-to-even; we model the source's float
    arithmetic with exact rational arithmetic. -/

/-- Round-half-to-even to the nearest integer (Python's round on an
    integer-scaled value). -/
def pyRoundHalfEven (q : ℚ) : ℤ :=
  let f := ⌊q⌋
  let r := q - f
  if r < 1/2 then f
  else if 1/2 < r then f + 1
  else if 2 ∣ f then f else f + 1

/-- Value of Python round(q, 5), scaled by 10^5 to an integer. -/
def roundScaled5 (q : ℚ) : ℤ := pyRoundHalfEven (q * 100000)

/-- Python round(q, 5) as a rational. -/
def round5 (q : ℚ) : ℚ := (roundScaled5 q : ℚ) / 100000

def cm_per_percent_height : ℚ := 38/100

/-- Numeric value computed by math() in rc_m.py lines 295-297 (the source
    returns str of this value; the rendering is modelled by mathStr). -/
def math (z_coordinate : ℚ) (height : ℚ) : ℚ :=
  round5 (z_coordinate + height * cm_per_percent_height)

/-- Numeric value computed by maths() in rc-m.py lines 44-48, whose
    displacement constant is 4.81488 per unit of its x argument. -/
def maths (n : ℚ) (x : ℚ) : ℚ := round5 (n + x * (481488/100000))

/-- Decimal digit list of a natural number (most significant first). -/
def natDigits (n : ℕ) : List Char := Nat.toDigits 10 n

/-- Value of a list of decimal digit characters (Python int semantics of
    the digit runs that float() consumes). -/
def digitsVal (cs : List Char) : ℕ := cs.foldl (fun a c => 10 * a + (c.toNat - 48)) 0

/-- Python float() on a plain decimal literal, possibly signed, with an
    optional fractional part ("54.19344", "5.0", "-0.5", "810").
    Exponent forms do not occur in the decks being modelled. -/
def parseQ (cs : List Char) : ℚ :=
  let body := if cs.head? = some '-' then cs.drop 1 else cs
  let sgn : ℚ := if cs.head? = some '-' then -1 else 1
  let ip := body.takeWhile (fun c => c ≠ '.')
  let fp := (body.dropWhile (fun c => c ≠ '.')).drop 1
  sgn * ((digitsVal ip : ℚ) + (digitsVal fp : ℚ) / (10 : ℚ) ^ fp.length)

/-- Python str() of the float k/10^5 for moderate magnitudes: integer part,
    a dot, and the fractional digits with trailing zeros removed ("8.8",
    "54.19344", "5.0").  Tiny magnitudes that Python would print in
    exponent notation do not occur for the coordinates being modelled. -/
def decimal5 (k : ℤ) : List Char :=
  let sign : List Char := if k < 0 then ['-'] else []
  let n := k.natAbs
  let ipart := natDigits (n / 100000)
  let fdigits := natDigits (n % 100000)
  let frac5 := List.replicate (5 - fdigits.length) '0' ++ fdigits
  let ftrim := (frac5.reverse.dropWhile (fun c => c = '0')).reverse
  sign ++ ipart ++ ['.'] ++ (if ftrim = [] then ['0'] else ftrim)

/-- String written by math() in rc_m.py: str(round(z + height*0.38, 5)). -/
def mathStr (z : ℚ) (height : ℚ) : List Char :=
  decimal5 (roundScaled5 (z + height * cm_per_percent_height))

/-! Section: Deck templater: change_height and find_height (rc_m.py lines 159-256) -/

/--
change_height (rc_m.py lines 242-256).  The line handed over by
find_height still carries its newline, which sep_entries strips; our lines
are terminator-free, so the call site appends it.  For 'pz' the third
token is replaced and tokens 0-3 are rejoined with three spaces, the rest
with single spaces; for 'k/z' the fifth token is replaced with a 7-token
head.  (For any other `value` the source leaves `s` unbound and raises;
that case is unreachable from find_height.)
-/
def change_height (value : List Char) (line : List Char) (height : ℕ) : List Char :=
  let lf := sep_entries (line ++ ['\n'])
  if value = "pz".data then
    let lf2 := lf.set 2 (mathStr (parseQ (lf.getD 2 [])) height)
    joinSep ("   ".data) (lf2.take 4) ++ [' '] ++ joinSep [' '] (lf2.drop 4)
  else if value = "k/z".data then
    let lf2 := lf.set 4 (mathStr (parseQ (lf.getD 4 [])) height)
    joinSep ("   ".data) (lf2.take 7) ++ [' '] ++ joinSep [' '] (lf2.drop 7)
  else []

/-- Python str.capitalize(): first character upper-cased, the rest
    lower-cased. -/
def pyCapitalize : List Char → List Char
  | [] => []
  | c :: cs => Char.toUpper c :: cs.map Char.toLower

/-- rc_m.py line 181. -/
def start_marker (rod : List Char) : List Char :=
  pyCapitalize rod ++ " Rod (0% Withdrawn)".data

/-- rc_m.py line 182. -/
def end_marker (rod : List Char) : List Char :=
  "End of ".data ++ pyCapitalize rod ++ " Rod".data

/-- The synthesized line written in place of the start marker,
    rc_m.py line 194: f-string "c {rod.capitalize()} Rod ({height}% withdrawn)". -/
def marker_note (rod : List Char) (height : ℕ) : List Char :=
  "c ".data ++ pyCapitalize rod ++ " Rod (".data ++ natDigits height ++ "% withdrawn)".data

/--
One iteration of the find_height line loop (rc_m.py lines 188-226) on a
single line: given the inside_block state, returns the lines written for
this input line (possibly none) and the new state.  `l₁ <:+: l₂` is
Python's substring test `in`; `line.head? = some c` is `line[0] == c`
(total where Python would raise on an empty string, which file iteration
never yields).
-/
def find_height_line (rod : List Char) (height : ℕ) (inside_block : Bool) (line : List Char) :
    List (List Char) × Bool :=
  if inside_block = false then
    if start_marker rod <:+: line ∧ ¬ ("90%".data <:+: line) then
      ([marker_note rod height], true)
    else ([line], false)
  else
    if line.head? = some 'c' then
      if end_marker rod <:+: line then ([], false) else ([line], true)
    else if ("pz".data) <:+: line ∧ line.head? = some '8' then
      ([change_height ("pz".data) line height], true)
    else if ("k/z".data) <:+: line ∧ line.head? = some '8' then
      ([change_height ("k/z".data) line height], true)
    else ([line], true)

/-- The whole find_height line loop over the base deck, threading the
    inside_block flag (initially False) and collecting the written lines;
    also returns the final state, which the source discards. -/
def find_height_lines (rod : List Char) (height : ℕ) :
    List (List Char) → Bool → List (List Char) × Bool
  | [], inside => ([], inside)
  | l :: ls, inside =>
      let step := find_height_line rod height inside l
      let rest := find_height_lines rod height ls step.2
      (step.1 ++ rest.1, rest.2)

/-! Section: Filesystem-level behaviour of find_height (rc_m.py lines 159-230) -/

/-- A flat file store: file name to contents (a list of lines). -/
def FS : Type := List Char → Option (List (List Char))

/-- str(height).zfill(3), rc_m.py line 161. -/
def zfill3 (n : ℕ) : List Char :=
  let s := natDigits n
  List.replicate (3 - s.length) '0' ++ s

/-- The output deck name built on rc_m.py line 161:
    './' + inputs_folder_name + '/' + 'rc-' + rod.lower() + '-' + str(height).zfill(3) + '.i'. -/
def new_input_name (rod : List Char) (height : ℕ) (inputs_folder_name : List Char) : List Char :=
  "./".data ++ inputs_folder_name ++ "/".data ++ "rc-".data ++ rod.map Char.toLower
    ++ "-".data ++ zfill3 height ++ ".i".data

/--
find_height (rc_m.py lines 159-230) at the file level.  The source opens
the base deck first (line 160) — a missing base deck raises — then checks
whether the target deck exists (line 168) and if so prints "... will be
skipped because it already exists" and returns False without writing;
otherwise it writes the processed lines and returns True.  The directory
creation on lines 164-165 is not modelled (the store is flat).
-/
def find_height (fs : FS) (rod : List Char) (height : ℕ)
    (base_input_name inputs_folder_name : List Char) : Except (List Char) (FS × Bool) :=
  match fs base_input_name with
  | none => Except.error ("FileNotFoundError".data)
  | some base =>
      let target := new_input_name rod height inputs_folder_name
      if (fs target).isSome then Except.ok (fs, false)
      else
        Except.ok (fun n => if n = target then
          some (find_height_lines rod height base false).1 else fs n, true)

/-! Section: Reduction engine: convert_keff_to_rho (rc_m.py lines 309-348) -/

/-- One rod's columns of the keff table: keff and its uncertainty, indexed
    by the height label (keff_df.loc[height, rod] and
    keff_df.loc[height, rod + " unc"]). -/
structure RodColumn where
  k : ℚ → ℚ
  dk : ℚ → ℚ

/--
Reactivity computed per cell by convert_keff_to_rho (rc_m.py lines
331-339): `k1 = keff_df.loc[height, rod]`,
`k2 = keff_df.loc[heights[-1], rod]` — the table's LAST height row —
and `rho = (k2-k1)/(k2*k1)*100`.
-/
def rho_of (heights : List ℚ) (c : RodColumn) (height : ℚ) : ℚ :=
  let k1 := c.k height
  let k2 := c.k (heights.getLastD 0)
  (k2 - k1) / (k2 * k1) * 100

/--
Uncertainty computed per cell by convert_keff_to_rho (rc_m.py lines
333-345): when `k2 - k1 != 0`,
`d_rho = rho*sqrt((d_k2_minus_k1/k2_minus_k1)^2 + (d_k2_times_k1/k2_times_k1)^2)`
with `d_k2_minus_k1 = sqrt(dk2^2+dk1^2)` and
`d_k2_times_k1 = k2*k1*sqrt((dk2/k2)^2+(dk1/k1)^2)`; otherwise 0.
-/
noncomputable def d_rho_of (heights : List ℚ) (c : RodColumn) (height : ℚ) : ℝ :=
  let k1 : ℝ := (c.k height : ℚ)
  let k2 : ℝ := (c.k (heights.getLastD 0) : ℚ)
  let dk1 : ℝ := (c.dk height : ℚ)
  let dk2 : ℝ := (c.dk (heights.getLastD 0) : ℚ)
  let d_k2_minus_k1 := Real.sqrt (dk2 ^ 2 + dk1 ^ 2)
  let d_k2_times_k1 := k2 * k1 * Real.sqrt ((dk2 / k2) ^ 2 + (dk1 / k1) ^ 2)
  if c.k (heights.getLastD 0) - c.k height ≠ 0 then
    (rho_of heights c height : ℝ) *
      Real.sqrt ((d_k2_minus_k1 / (k2 - k1)) ^ 2 + (d_k2_times_k1 / (k2 * k1)) ^ 2)
  else 0

/-- Modelled from the spec's words (section 4.2): percent reactivity
    rho = 100*(k2-k1)/(k2*k1), for comparison with rho_of. -/
def rhoFormula (k1 k2 : ℚ) : ℚ := 100 * (k2 - k1) / (k2 * k1)

/-- Modelled from the spec's words (section 4.2): propagated uncertainty
    d_rho = rho*sqrt((d_num/num)^2 + (d_den/den)^2) with
    num = k2-k1, d_num = sqrt(dk2^2+dk1^2), den = k2*k1,
    d_den = k2*k1*sqrt((dk2/k2)^2+(dk1/k1)^2). -/
noncomputable def dRhoFormula (k1 k2 dk1 dk2 : ℚ) : ℝ :=
  let num : ℝ := (k2 : ℝ) - (k1 : ℝ)
  let d_num : ℝ := Real.sqrt ((dk2 : ℝ) ^ 2 + (dk1 : ℝ) ^ 2)
  let den : ℝ := (k2 : ℝ) * (k1 : ℝ)
  let d_den : ℝ := (k2 : ℝ) * (k1 : ℝ) * Real.sqrt (((dk2 : ℝ) / k2) ^ 2 + ((dk1 : ℝ) / k1) ^ 2)
  (rhoFormula k1 k2 : ℝ) * Real.sqrt ((d_num / num) ^ 2 + (d_den / den) ^ 2)

/-! Section: Derived parameters: calc_params (rc_m.py lines 459-501) -/

def beta_eff : ℚ := 75/10000

def react_add_rate_limit : ℚ := 16/100

/-- Python max() over a nonempty list (arbitrary value on []). -/
def listMax : List ℚ → ℚ
  | [] => 0
  | x :: xs => xs.foldl max x

/-- Coefficients of a cubic c3*x^3 + c2*x^2 + c1*x + c0, highest first as
    np.polyfit returns them. -/
structure Poly3 where
  c3 : ℚ
  c2 : ℚ
  c1 : ℚ
  c0 : ℚ

/-- Coefficients of a quadratic b2*x^2 + b1*x + b0, highest first. -/
structure Poly2 where
  b2 : ℚ
  b1 : ℚ
  b0 : ℚ

def det3 (a b c d e f g h i : ℚ) : ℚ :=
  a * (e * i - f * h) - b * (d * i - f * g) + c * (d * h - e * g)

def det4 (a b c d e f g h i j k l m n o p : ℚ) : ℚ :=
  a * det3 f g h j k l n o p - b * det3 e g h i k l m o p
    + c * det3 e f h i j l m n p - d * det3 e f g i j k m n o

def powSum (xs : List ℚ) (k : ℕ) : ℚ := (xs.map (fun x => x ^ k)).sum

def powDotSum (xs ys : List ℚ) (k : ℕ) : ℚ := (List.zipWith (fun x y => x ^ k * y) xs ys).sum

/--
Degree-3 least-squares fit (np.polyfit(xs, ys, 3)): the coefficient
vector solving the normal equations (Vᵀ V) a = Vᵀ y of the cubic
Vandermonde system, solved by Cramer's rule.  (As everywhere in this
development the solver's float arithmetic is modelled exactly over ℚ;
the fit is the mathematical least-squares solution when the normal
matrix is invertible.)
-/
def polyfit3 (xs ys : List ℚ) : Poly3 :=
  let s0 := powSum xs 0
  let s1 := powSum xs 1
  let s2 := powSum xs 2
  let s3 := powSum xs 3
  let s4 := powSum xs 4
  let s5 := powSum xs 5
  let s6 := powSum xs 6
  let t0 := powDotSum xs ys 0
  let t1 := powDotSum xs ys 1
  let t2 := powDotSum xs ys 2
  let t3 := powDotSum xs ys 3
  let dM := det4 s6 s5 s4 s3 s5 s4 s3 s2 s4 s3 s2 s1 s3 s2 s1 s0
  let d3 := det4 t3 s5 s4 s3 t2 s4 s3 s2 t1 s3 s2 s1 t0 s2 s1 s0
  let d2 := det4 s6 t3 s4 s3 s5 t2 s3 s2 s4 t1 s2 s1 s3 t0 s1 s0
  let d1 := det4 s6 s5 t3 s3 s5 s4 t2 s2 s4 s3 t1 s1 s3 s2 t0 s0
  let d0 := det4 s6 s5 s4 t3 s5 s4 s3 t2 s4 s3 s2 t1 s3 s2 s1 t0
  ⟨d3 / dM, d2 / dM, d1 / dM, d0 / dM⟩

/-- Negated np.polyder (rc_m.py line 482, -1*np.polyder(int_eq)): the sign-inverted analytic
    derivative of the cubic. -/
def negPolyder3 (p : Poly3) : Poly2 := ⟨-1 * (3 * p.c3), -1 * (2 * p.c2), -1 * p.c1⟩

/-- np.polyval for a quadratic coefficient vector. -/
def polyval2 (p : Poly2) (x : ℚ) : ℚ := p.b2 * x ^ 2 + p.b1 * x + p.b0

/-- The five derived values of calc_params (rc_m.py lines 475-498). -/
structure RodParams where
  worth : ℚ
  maxWorthRatePer : ℚ
  maxWorthRateInch : ℚ
  reactAddRate : ℚ
  maxMotorSpeed : ℚ

/--
calc_params for one rod (rc_m.py lines 475-498):
`worth = 0.01*max(rho)/beta_eff`;
`dif_eq = -1*np.polyder(np.polyfit(heights, rho, 3))`;
`max_worth_rate_per = 0.01*max(np.polyval(dif_eq, heights))/beta_eff`;
`max_worth_rate_inch = max_worth_rate_per/cm_per_percent_height*2.54`;
`react_add_rate = motor_speed[rod]*max_worth_rate_inch/60`;
`max_motor_speed = 1/max_worth_rate_inch*react_add_rate_limit*60`.
-/
def calc_params_rod (heights rho : List ℚ) (motor_speed : ℚ) : RodParams :=
  let worth := 1/100 * listMax rho / beta_eff
  let int_eq := polyfit3 heights rho
  let dif_eq := negPolyder3 int_eq
  let max_worth_rate_per := 1/100 * listMax (heights.map (polyval2 dif_eq)) / beta_eff
  let max_worth_rate_inch := max_worth_rate_per / cm_per_percent_height * (254/100)
  let react_add_rate := motor_speed * max_worth_rate_inch / 60
  let max_motor_speed := 1 / max_worth_rate_inch * react_add_rate_limit * 60
  ⟨worth, max_worth_rate_per, max_worth_rate_inch, react_add_rate, max_motor_speed⟩

/-- Modelled from the spec's words (section 4.2 derived parameters):
    dollar worth = (0.01 × max reactivity) / beta-effective. -/
def dollarWorthSpec (rho : List ℚ) : ℚ := 1/100 * listMax rho / beta_eff

/-- Modelled from the spec's words: the differential worth curve is the
    sign-inverted analytic derivative of the degree-3 least-squares fit. -/
def diffCurveSpec (heights rho : List ℚ) : Poly2 := negPolyder3 (polyfit3 heights rho)

/-- Modelled from the spec's words: max differential worth per % height =
    (0.01 × max of the fitted differential curve at the sample heights) /
    beta-effective. -/
def maxDiffWorthPerSpec (heights rho : List ℚ) : ℚ :=
  1/100 * listMax (heights.map (polyval2 (diffCurveSpec heights rho))) / beta_eff

/-- Modelled from the spec's words: max motor speed = the regulatory
    reactivity-addition-rate ceiling divided by max differential worth per
    unit length, time-unit-converted. -/
def maxMotorSpeedSpec (maxWorthRateInch : ℚ) : ℚ :=
  react_add_rate_limit / maxWorthRateInch * 60

/-! Section: Concrete keff columns used in counterexamples and scenarios -/

/-- keff column with k(100) = 0.96 and k = 0.95 at every other height. -/
def cXC1 : RodColumn := ⟨fun h => if h = 100 then 24/25 else 19/20, fun _ => 1/1000⟩

/-- keff column with k(100) = 0.97 and k = 0.95 at every other height. -/
def cZC6 : RodColumn := ⟨fun h => if h = 100 then 97/100 else 19/20, fun _ => 1/1000⟩

/-- keff column with k(100) = 0.96 and k = 0.94 at every other height. -/
def cYC10 : RodColumn := ⟨fun h => if h = 100 then 24/25 else 47/50, fun _ => 1/1000⟩

/-- The spec's end-to-end scenario column: k(0) = 0.950, k(100) = 0.965,
    both with uncertainty 0.001. -/
def cRegC9 : RodColumn := ⟨fun h => if h = 0 then 19/20 else 193/200, fun _ => 1/1000⟩

/-- A base deck with a complete safe-rod block whose geometry line is not a
    pz or k/z record (surface mnemonic "so") but mentions "pz" in its
    trailing comment. -/
def deckA : List (List Char) :=
  ["c Safe Rod (0% Withdrawn)".data,
   "812301 so 5.0 $ near pz".data,
   "c End of Safe Rod".data]

/-- A base deck whose safe-rod start marker has no matching end marker. -/
def deckNoEnd : List (List Char) :=
  ["c Shim Rod (0% Withdrawn)".data,
   "812306 plate top".data]

/-- Store holding only the base deck. -/
def fsNoEnd : FS := fun n => if n = "rc.i".data then some deckNoEnd else none

/-- Store holding the base deck and an already-existing target deck
    ./inputs/rc-safe-010.i. -/
def fsExist : FS := fun n =>
  if n = "rc.i".data then some deckA
  else if n = new_input_name ("safe".data) 10 "inputs".data then some [] else none

/-! Section: Tokenizer lemmas -/

theorem sepLoop_out (cs : List Char) : ∀ (prev : Char) (wrd : List Char) (out : List (List Char)),
    sepLoop cs prev wrd out = (out ++ (sepLoop cs prev wrd []).1, (sepLoop cs prev wrd []).2) := by
  induction cs with
  | nil => intro prev wrd out; simp [sepLoop]
  | cons c rest ih =>
      intro prev wrd out
      by_cases hc : c = ' '
      · subst hc
        by_cases hp : prev = ' '
        · simp [sepLoop, hp]; exact ih _ _ _
        · simp only [sepLoop, hp, if_neg, ite_true, ite_false, ne_eq, not_true_eq_false,
            not_false_eq_true]
          rw [ih ' ' [] (out ++ [wrd]), ih ' ' [] ([] ++ [wrd])]
          simp
      · simp only [sepLoop, hc, ne_eq, not_false_eq_true, if_pos]
        exact ih _ _ _

theorem sepLoop_eq_runAux (cs : List Char) : ∀ (prev : Char) (wrd : List Char),
    (prev = ' ' ↔ wrd = []) → sepLoop cs prev wrd [] = runAux cs wrd := by
  induction cs with
  | nil => intro prev wrd _; simp [sepLoop, runAux]
  | cons c rest ih =>
      intro prev wrd hiff
      by_cases hc : c = ' '
      · subst hc
        by_cases hp : prev = ' '
        · have hw : wrd = [] := hiff.mp hp
          subst hw
          simp [sepLoop, runAux, hp]
          exact ih ' ' [] (by simp)
        · have hw : wrd ≠ [] := fun h => hp (hiff.mpr h)
          simp only [sepLoop, runAux, hp, ne_eq, not_true_eq_false, if_false, ite_false,
            not_false_eq_true, if_true, hw]
          rw [sepLoop_out rest ' ' [] ([] ++ [wrd]), ih ' ' [] (by simp)]
          simp
      · have hw : wrd ++ [c] ≠ [] := by simp
        simp only [sepLoop, runAux, hc, ne_eq, not_false_eq_true, if_pos]
        exact ih c (wrd ++ [c]) (by simp [hc, hw])

theorem runAux_snoc_newline (cs : List Char) : ∀ wrd : List Char,
    runAux (cs ++ ['\n']) wrd = ((runAux cs wrd).1, (runAux cs wrd).2 ++ ['\n']) := by
  induction cs with
  | nil => intro wrd; simp [runAux]
  | cons c rest ih =>
      intro wrd
      by_cases hc : c = ' '
      · by_cases hw : wrd = []
        · simp [runAux, hc, hw, ih]
        · simp [runAux, hc, hw, ih]
      · simp [runAux, hc, ih]

theorem spaceSplitAux_eq_runAux (cs : List Char) : ∀ wrd : List Char,
    spaceSplitAux cs wrd =
      (runAux cs wrd).1 ++ (if (runAux cs wrd).2 = [] then [] else [(runAux cs wrd).2]) := by
  induction cs with
  | nil => intro wrd; by_cases hw : wrd = [] <;> simp [spaceSplitAux, runAux, hw]
  | cons c rest ih =>
      intro wrd
      by_cases hc : c = ' '
      · by_cases hw : wrd = []
        · simp [spaceSplitAux, runAux, hc, hw, ih]
        · simp [spaceSplitAux, runAux, hc, hw, ih]
      · simp [spaceSplitAux, runAux, hc, ih]

theorem runAux_final_empty (cs : List Char) : ∀ wrd : List Char,
    ((runAux cs wrd).2 = [] ↔ (cs = [] ∧ wrd = []) ∨ cs.getLast? = some ' ') := by
  induction cs with
  | nil => intro wrd; simp [runAux]
  | cons c rest ih =>
      intro wrd
      by_cases hc : c = ' '
      · subst hc
        by_cases hw : wrd = []
        · simp only [runAux, hw, ne_eq, not_true_eq_false, if_false, ite_true,
            not_false_eq_true, if_true]
          rw [ih []]
          cases rest with
          | nil => simp
          | cons d ds => simp [List.getLast?_cons_cons]
        · simp only [runAux, ne_eq, not_true_eq_false, if_false, hw, not_false_eq_true, if_true]
          rw [ih []]
          cases rest with
          | nil => simp
          | cons d ds => simp [List.getLast?_cons_cons]
      · simp only [runAux, hc, ne_eq, not_false_eq_true, if_pos]
        rw [ih (wrd ++ [c])]
        cases rest with
        | nil => simp [hc]
        | cons d ds => simp [List.getLast?_cons_cons]

theorem getLastD_eq_getLast : ∀ (l : List ℚ) (h : l ≠ []) (d : ℚ),
    l.getLastD d = l.getLast h
  | [_], _, _ => rfl
  | a :: b :: l, _, _ => by
      rw [List.getLastD_cons, List.getLast_cons (by simp)]
      exact getLastD_eq_getLast (b :: l) (by simp) a

/-- Behaviour of sep_entries on a newline-terminated line: it yields the
    maximal space-separated runs of the body, plus a spurious empty final
    token when the body is empty or ends in a space. -/
theorem getLastD_snoc (l : List Char) (a : Char) : ∀ d : Char, (l ++ [a]).getLastD d = a := by
  induction l with
  | nil => intro d; rfl
  | cons b m ih => intro d; rw [List.cons_append, List.getLastD_cons]; exact ih b

theorem sep_entries_newline (cs : List Char) :
    sep_entries (cs ++ ['\n']) =
      spaceSplit cs ++ (if cs = [] ∨ cs.getLast? = some ' ' then [[]] else []) := by
  have hlast : ((' ' :: (cs ++ ['\n'])).getLastD ' ') = '\n' := by
    rw [List.getLastD_cons]; exact getLastD_snoc cs '\n' ' '
  have hstep : sepLoop (' ' :: (cs ++ ['\n'])) '\n' [] [] =
      sepLoop (cs ++ ['\n']) ' ' [] ([] ++ [[]]) := by
    simp [sepLoop]
  have hbridge : sepLoop (cs ++ ['\n']) ' ' [] [] = runAux (cs ++ ['\n']) [] :=
    sepLoop_eq_runAux _ _ _ (by simp)
  have hrun := runAux_snoc_newline cs []
  have hsplit := spaceSplitAux_eq_runAux cs []
  have hempty := runAux_final_empty cs []
  simp only [sep_entries]
  rw [hlast, hstep, sepLoop_out _ _ _ _, hbridge, hrun]
  rcases Classical.em ((runAux cs []).2 = []) with hF | hF
  · have hcond : cs = [] ∨ cs.getLast? = some ' ' := by
      rcases hempty.mp hF with ⟨h1, _⟩ | h2
      · exact Or.inl h1
      · exact Or.inr h2
    rw [if_pos hcond]
    simp only [spaceSplit, hsplit, hF, if_pos, ite_true]
    simp [hF]
  · have hcond : ¬ (cs = [] ∨ cs.getLast? = some ' ') := by
      intro h
      apply hF
      apply hempty.mpr
      rcases h with h1 | h2
      · exact Or.inl ⟨h1, rfl⟩
      · exact Or.inr h2
    rw [if_neg hcond]
    simp only [spaceSplit, hsplit, hF, ite_false]
    simp

theorem spaceSplitAux_append_no_space (w : List Char) : ∀ (cs wrd : List Char), ' ' ∉ w →
    spaceSplitAux (w ++ cs) wrd = spaceSplitAux cs (wrd ++ w) := by
  induction w with
  | nil => intro cs wrd _; simp
  | cons c v ih =>
      intro cs wrd hw
      have hc : c ≠ ' ' := by
        intro h; exact hw (by simp [h])
      have hv : ' ' ∉ v := fun h => hw (by simp [h])
      simp only [List.cons_append, spaceSplitAux, hc, ne_eq, not_false_eq_true, if_pos]
      simpa using ih cs (wrd ++ [c]) hv

theorem spaceSplit_of_no_space (w : List Char) (hw : ' ' ∉ w) (hne : w ≠ []) :
    spaceSplit w = [w] := by
  unfold spaceSplit
  rw [show w = w ++ [] by simp, spaceSplitAux_append_no_space w [] [] hw]
  simp [spaceSplitAux, hne]

theorem mem_spaceSplitAux (cs : List Char) : ∀ (wrd w : List Char), ' ' ∉ wrd →
    w ∈ spaceSplitAux cs wrd → w ≠ [] ∧ ' ' ∉ w := by
  induction cs with
  | nil =>
      intro wrd w hwrd hmem
      by_cases h : wrd = []
      · simp [spaceSplitAux, h] at hmem
      · simp [spaceSplitAux, h] at hmem
        subst hmem; exact ⟨h, hwrd⟩
  | cons c rest ih =>
      intro wrd w hwrd hmem
      by_cases hc : c = ' '
      · subst hc
        by_cases h : wrd = []
        · simp only [spaceSplitAux, ne_eq, not_true_eq_false, if_false, h, ite_true] at hmem
          exact ih [] w (by simp) hmem
        · simp only [spaceSplitAux, ne_eq, not_true_eq_false, if_false, h, ite_false,
            List.mem_cons] at hmem
          rcases hmem with hmem | hmem
          · subst hmem; exact ⟨h, hwrd⟩
          · exact ih [] w (by simp) hmem
      · simp only [spaceSplitAux, hc, ne_eq, not_false_eq_true, if_pos] at hmem
        exact ih (wrd ++ [c]) w (by simp [hwrd, Ne.symm hc]) hmem

theorem mem_spaceSplit (cs w : List Char) (hmem : w ∈ spaceSplit cs) :
    w ≠ [] ∧ ' ' ∉ w :=
  mem_spaceSplitAux cs [] w (by simp) hmem

theorem joinSep_space_words : ∀ ws : List (List Char),
    (∀ w ∈ ws, w ≠ [] ∧ ' ' ∉ w) → ws ≠ [] →
    joinSep [' '] ws ≠ [] ∧ (joinSep [' '] ws).getLast? ≠ some ' ' := by
  intro ws
  induction ws with
  | nil => intro _ h; exact absurd rfl h
  | cons w ws ih =>
      intro hws _
      cases ws with
      | nil =>
          have hw := hws w (by simp)
          constructor
          · simpa [joinSep] using hw.1
          · simp only [joinSep]
            intro h
            exact hw.2 (List.mem_of_mem_getLast? h)
      | cons w' ws' =>
          have hrest := ih (fun u hu => hws u (by simp [hu])) (by simp)
          have hjoin : joinSep [' '] (w :: w' :: ws') = w ++ (' ' :: joinSep [' '] (w' :: ws')) := by
            simp [joinSep]
          constructor
          · rw [hjoin]; simp
          · rw [hjoin]
            rw [List.getLast?_append_of_ne_nil w (by simp)]
            cases hj : joinSep [' '] (w' :: ws') with
            | nil => exact absurd hj hrest.1
            | cons a l =>
                rw [List.getLast?_cons_cons]
                rw [hj] at hrest
                exact hrest.2

theorem spaceSplit_joinSep : ∀ ws : List (List Char),
    (∀ w ∈ ws, w ≠ [] ∧ ' ' ∉ w) → spaceSplit (joinSep [' '] ws) = ws := by
  intro ws
  induction ws with
  | nil => intro _; simp [joinSep, spaceSplit, spaceSplitAux]
  | cons w ws ih =>
      intro hws
      have hw := hws w (by simp)
      cases ws with
      | nil => simpa [joinSep] using spaceSplit_of_no_space w hw.2 hw.1
      | cons w' ws' =>
          have hjoin : joinSep [' '] (w :: w' :: ws') = w ++ (' ' :: joinSep [' '] (w' :: ws')) := by
            simp [joinSep]
          rw [hjoin]
          unfold spaceSplit
          rw [spaceSplitAux_append_no_space w _ [] hw.2]
          simp only [List.nil_append, spaceSplitAux, ne_eq, not_true_eq_false, if_false,
            hw.1, ite_false]
          have := ih (fun u hu => hws u (by simp [hu]))
          unfold spaceSplit at this
          rw [this]

/-! Section: Claim theorems -/

/--
Claim C1, counterexample.  The claim says the reference sample k2 is the
rod's 100%-height sample.  On the table with height rows [100, 50] the
code's reactivity at height 100 is computed against the LAST row (height
50) and equals -125/114, whereas the claimed formula with k2 = k(100)
gives 0.
-/
theorem rho_reference_not_height100 :
    rho_of [100, 50] cXC1 100 = -125/114
    ∧ rhoFormula (cXC1.k 100) (cXC1.k 100) = 0
    ∧ rho_of [100, 50] cXC1 100 ≠ rhoFormula (cXC1.k 100) (cXC1.k 100) := by
  refine ⟨?_, ?_, ?_⟩ <;> norm_num [rho_of, rhoFormula, cXC1, List.getLastD]

/--
Claim C1, amended.  For every rod column and height, convert_keff_to_rho
computes rho = 100*(k2-k1)/(k2*k1) and
d_rho = rho*sqrt((d_num/num)^2+(d_den/den)^2) (0 when num = 0) exactly as
claimed, except that k2 and dk2 are taken from the table's LAST height row
(heights[-1]) rather than from the row labeled 100; the two coincide when
100 is the last listed height, as in the standard grid.
-/
theorem convert_keff_to_rho_formula (heights : List ℚ) (c : RodColumn) (h : ℚ) :
    rho_of heights c h = rhoFormula (c.k h) (c.k (heights.getLastD 0))
    ∧ d_rho_of heights c h =
        (if c.k (heights.getLastD 0) - c.k h = 0 then 0
         else dRhoFormula (c.k h) (c.k (heights.getLastD 0))
                (c.dk h) (c.dk (heights.getLastD 0))) := by
  have hrho : rho_of heights c h = rhoFormula (c.k h) (c.k (heights.getLastD 0)) := by
    unfold rho_of rhoFormula; ring
  refine ⟨hrho, ?_⟩
  unfold d_rho_of dRhoFormula
  by_cases hnum : c.k (heights.getLastD 0) - c.k h = 0
  · rw [if_neg (not_not_intro hnum), if_pos hnum]
  · rw [if_pos hnum, if_neg hnum, hrho]

/--
Claim C6, counterexample.  The claim says reactivity at height 100 is 0
for every rod of the reactivity table; on a table whose rows are
[0, 100, 60] the reactivity at the row labeled 100 is -4000/1843 ≠ 0,
because the reference is the last row (height 60).
-/
theorem rho_at_100_nonzero_when_not_last :
    rho_of [0, 100, 60] cZC6 100 = -4000/1843
    ∧ rho_of [0, 100, 60] cZC6 100 ≠ 0 := by
  constructor <;> norm_num [rho_of, cZC6, List.getLastD]

/--
Claim C6, amended.  For every rod column, whenever the table's last listed
height is 100 (as in the standard 0..100 grid) the computed reactivity at
height 100 is 0 and its computed uncertainty is 0; in general the zero is
at the last height, not at the row labeled 100.
-/
theorem rho_zero_when_last_is_100 (heights : List ℚ) (c : RodColumn)
    (hlast : heights.getLastD 0 = 100) :
    rho_of heights c 100 = 0 ∧ d_rho_of heights c 100 = 0 := by
  constructor
  · unfold rho_of; rw [hlast]; simp
  · unfold d_rho_of; rw [hlast]; simp

/-- Witness for the amended C6 theorem at the table [0, 100] with the
    scenario column. -/
theorem rho_zero_when_last_is_100_witness :
    rho_of [0, 100] cRegC9 100 = 0 ∧ d_rho_of [0, 100] cRegC9 100 = 0 :=
  rho_zero_when_last_is_100 [0, 100] cRegC9 (by norm_num [List.getLastD])

/--
Claim C10 (implicit), confirmed.  The reduction engine takes the reference
sample from the table's last row: for every table and rod column the
reactivity and uncertainty at the last listed height are 0, and on a
concrete table whose last height is not 100 (rows [100, 50]) the
reactivity at the row labeled 100 is nonzero.
-/
theorem convert_keff_to_rho_reference_last_row :
    (∀ (heights : List ℚ) (c : RodColumn) (hne : heights ≠ []),
        rho_of heights c (heights.getLast hne) = 0
        ∧ d_rho_of heights c (heights.getLast hne) = 0)
    ∧ ((100 : ℚ) ∈ ([100, 50] : List ℚ)
        ∧ ([100, 50] : List ℚ).getLastD 0 ≠ 100
        ∧ rho_of [100, 50] cYC10 100 ≠ 0) := by
  constructor
  · intro heights c hne
    have h := getLastD_eq_getLast heights hne 0
    constructor
    · unfold rho_of; rw [h]; simp
    · unfold d_rho_of; rw [h]; simp
  · refine ⟨by norm_num, by norm_num [List.getLastD], ?_⟩
    norm_num [rho_of, cYC10, List.getLastD]

/-- Witness for the C10 theorem at the table [0, 100]. -/
theorem convert_keff_to_rho_reference_last_row_witness :
    rho_of [0, 100] cRegC9 (([0, 100] : List ℚ).getLast (by simp)) = 0 :=
  (convert_keff_to_rho_reference_last_row.1 [0, 100] cRegC9 (by simp)).1

/--
Claim C3, confirmed.  The coordinate rule of rc_m.py (math) produces
round(c0 + h*d, 5) with d = 0.38 for every original value c0 and height h
(in particular at h = 0, 50, 100), and the rc-m.py variant (maths) does
the same with its displacement constant 4.81488 per unit of its argument.
-/
theorem coordinate_rule_correct (c0 h n x : ℚ) :
    math c0 h = round5 (c0 + h * cm_per_percent_height)
    ∧ maths n x = round5 (n + x * (481488/100000))
    ∧ math c0 0 = round5 (c0 + 0 * cm_per_percent_height)
    ∧ math c0 50 = round5 (c0 + 50 * cm_per_percent_height)
    ∧ math c0 100 = round5 (c0 + 100 * cm_per_percent_height) :=
  ⟨rfl, rfl, rfl, rfl, rfl⟩

/--
Claim C7, confirmed.  calc_params derives, for every rod: dollar worth =
(0.01 × max sample reactivity)/beta_eff; max differential worth per %
height = (0.01 × max over the sample heights of the sign-inverted
derivative of the degree-3 least-squares fit)/beta_eff; and max motor
speed = the regulatory reactivity-addition-rate ceiling divided by the max
differential worth per unit length, converted from per-second to
per-minute.
-/
theorem calc_params_formulas (heights rho : List ℚ) (motor_speed : ℚ) :
    (calc_params_rod heights rho motor_speed).worth = dollarWorthSpec rho
    ∧ (calc_params_rod heights rho motor_speed).maxWorthRatePer = maxDiffWorthPerSpec heights rho
    ∧ (calc_params_rod heights rho motor_speed).maxMotorSpeed =
        maxMotorSpeedSpec ((calc_params_rod heights rho motor_speed).maxWorthRateInch) := by
  refine ⟨rfl, rfl, ?_⟩
  simp only [calc_params_rod, maxMotorSpeedSpec]
  ring

/--
Claim C9, counterexample.  On the spec's own scenario table
(k(0) = 0.950, k(100) = 0.965) the code's reactivity at height 0 is
6000/3667 ≈ 1.6362, which does NOT match the spec's stated value 1.6314 to
4 decimal places.
-/
theorem rho_scenario_not_1_6314 :
    rho_of [0, 100] cRegC9 0 = 6000/3667
    ∧ ¬ (|rho_of [0, 100] cRegC9 0 - 16314/10000| < 1/20000) := by
  have h1 : rho_of [0, 100] cRegC9 0 = 6000/3667 := by
    norm_num [rho_of, cRegC9, List.getLastD]
  refine ⟨h1, ?_⟩
  rw [h1, abs_of_pos (by norm_num)]
  norm_num

/--
Claim C9, amended.  On the scenario table the reactivity at height 0 is
exactly 100*(0.965-0.950)/(0.965*0.950) = 6000/3667 ≈ 1.6362 (not 1.6314),
matching 1.6362 to 4 decimal places, and the uncertainty is the value of
the section-4.2 propagation formula at k1 = 0.950, k2 = 0.965,
dk1 = dk2 = 0.001.
-/
theorem rho_scenario_1_6362 :
    rho_of [0, 100] cRegC9 0 = 6000/3667
    ∧ rho_of [0, 100] cRegC9 0 = rhoFormula (19/20) (193/200)
    ∧ |rho_of [0, 100] cRegC9 0 - 16362/10000| < 1/20000
    ∧ d_rho_of [0, 100] cRegC9 0 = dRhoFormula (19/20) (193/200) (1/1000) (1/1000) := by
  have h1 : rho_of [0, 100] cRegC9 0 = 6000/3667 := by
    norm_num [rho_of, cRegC9, List.getLastD]
  refine ⟨h1, ?_, ?_, ?_⟩
  · rw [h1]; norm_num [rhoFormula]
  · rw [h1, abs_of_pos (by norm_num)]
    norm_num
  · unfold d_rho_of dRhoFormula
    norm_num [cRegC9, List.getLastD, rho_of, rhoFormula]

/-! Section: Templater claims -/

/--
Claim C8, confirmed.  When the target output deck already exists,
find_height performs no write (the returned store is the input store,
whatever the base deck's contents), reports the skip as a non-error
(returns False rather than raising); and when the target is absent, a
first run writes it and a second run over the resulting store returns it
unchanged, so the first run's output stays byte-identical.
-/
theorem find_height_skip_policy (fs : FS) (rod base_input_name inputs_folder_name : List Char)
    (height : ℕ) (b : List (List Char)) (hb : fs base_input_name = some b) :
    (∀ d, fs (new_input_name rod height inputs_folder_name) = some d →
        find_height fs rod height base_input_name inputs_folder_name = Except.ok (fs, false))
    ∧ (fs (new_input_name rod height inputs_folder_name) = none →
        ∃ fs' : FS,
          find_height fs rod height base_input_name inputs_folder_name = Except.ok (fs', true)
          ∧ fs' (new_input_name rod height inputs_folder_name) =
              some ((find_height_lines rod height b false).1)
          ∧ find_height fs' rod height base_input_name inputs_folder_name
              = Except.ok (fs', false)) := by
  constructor
  · intro d hd
    unfold find_height
    rw [hb]
    simp [hd]
  · intro hnone
    refine ⟨fun n => if n = new_input_name rod height inputs_folder_name then
        some ((find_height_lines rod height b false).1) else fs n, ?_, ?_, ?_⟩
    · unfold find_height
      rw [hb]
      simp [hnone]
    · simp
    · have hneq : base_input_name ≠ new_input_name rod height inputs_folder_name := by
        intro h
        rw [h, hnone] at hb
        exact Option.noConfusion hb
      have h1 : (fun n => if n = new_input_name rod height inputs_folder_name then
          some ((find_height_lines rod height b false).1) else fs n) base_input_name
          = some b := by simp [hneq, hb]
      unfold find_height
      rw [h1]
      simp

/-- Witness for the C8 theorem: with the target ./inputs/rc-safe-010.i
    already present in the store, find_height returns the store unchanged
    with the skip flag. -/
theorem find_height_skip_policy_witness :
    find_height fsExist ("safe".data) 10 "rc.i".data ("inputs".data) = Except.ok (fsExist, false) :=
  (find_height_skip_policy fsExist ("safe".data) "rc.i".data ("inputs".data) 10 deckA
      (by decide)).1 [] (by decide)

/--
Claim C5, code bug.  On a base deck whose start marker has no matching end
marker, the line machine ends in the inside-block state, yet find_height
still returns success (True) with the written deck, instead of surfacing
the malformation as the spec requires.
-/
theorem find_height_missing_end_marker_silent :
    (find_height_lines ("shim".data) 10 deckNoEnd false).2 = true
    ∧ (find_height fsNoEnd ("shim".data) 10 "rc.i".data ("inputs".data)).map Prod.snd
        = Except.ok true := by
  constructor
  · decide
  · rfl

/--
Claim C2, amended.  The templater is the stated two-state machine, and
outside-block lines, marker replacement, the 90% guard, comment handling
and the end marker behave as claimed; but the inside-block rewrite
trigger is NOT token-level: a non-comment line is rewritten exactly when
it contains 'pz' (or else 'k/z') as a substring ANYWHERE in the line and
its FIRST CHARACTER is '8'; every other inside-block line is copied
byte-identical.
-/
theorem find_height_line_spec (rod : List Char) (height : ℕ) (line : List Char) :
    (find_height_line rod height false line =
        if start_marker rod <:+: line ∧ ¬ ("90%".data <:+: line)
        then ([marker_note rod height], true) else ([line], false))
    ∧ (line.head? = some 'c' →
        find_height_line rod height true line =
          if end_marker rod <:+: line then ([], false) else ([line], true))
    ∧ (line.head? ≠ some 'c' →
        find_height_line rod height true line =
          if ("pz".data) <:+: line ∧ line.head? = some '8'
          then ([change_height ("pz".data) line height], true)
          else if ("k/z".data) <:+: line ∧ line.head? = some '8'
          then ([change_height ("k/z".data) line height], true)
          else ([line], true)) := by
  refine ⟨rfl, fun h => ?_, fun h => ?_⟩
  · simp [find_height_line, h]
  · simp [find_height_line, h]

/-- Witness for the amended C2 theorem: a line whose first character is
    '8' and that contains "pz" is rewritten by change_height. -/
theorem find_height_line_spec_witness :
    find_height_line ("safe".data) 0 true ("812301 pz 5.0".data) =
      ([change_height ("pz".data) "812301 pz 5.0".data 0], true) := by
  have h := (find_height_line_spec ("safe".data) 0 "812301 pz 5.0".data).2.2 (by decide)
  rw [h]
  have hc : ("pz".data <:+: "812301 pz 5.0".data)
      ∧ ("812301 pz 5.0".data).head? = some '8' := by decide
  rw [if_pos hc]

/--
Claim C2, counterexample.  Processing deckA for the safe rod at height 10:
the inside-block line "812301 so 5.0 $ near pz" has mnemonic token "so"
(not pz or k/z), so the claim says it is copied byte-identical; the code
rewrites it to "812301   so   8.8   $ near pz" because the line contains
"pz" in its comment and starts with '8'.
-/
theorem find_height_rewrites_nonmnemonic_line :
    (find_height_lines ("safe".data) 10 deckA false).1 =
      ["c Safe Rod (10% withdrawn)".data, "812301   so   8.8   $ near pz".data]
    ∧ (sep_entries ("812301 so 5.0 $ near pz".data ++ ['\n'])).getD 1 [] = "so".data
    ∧ "so".data ≠ "pz".data ∧ "so".data ≠ "k/z".data
    ∧ "812301   so   8.8   $ near pz".data ≠ "812301 so 5.0 $ near pz".data := by
  have hsep : sep_entries ("812301 so 5.0 $ near pz".data ++ ['\n']) =
      ["812301".data, "so".data, "5.0".data, "$".data, "near".data, "pz".data] := by decide
  have hparse : parseQ ("5.0".data) = 5 := by
    simp [parseQ, digitsVal]
  have hscaled : roundScaled5 ((5 : ℚ) + (10 : ℕ) * cm_per_percent_height) = 880000 := by
    norm_num [roundScaled5, pyRoundHalfEven, cm_per_percent_height]
  have hm : mathStr 5 ((10 : ℕ) : ℚ) = "8.8".data := by
    unfold mathStr
    rw [hscaled]
    decide
  have hch : change_height ("pz".data) "812301 so 5.0 $ near pz".data 10 =
      "812301   so   8.8   $ near pz".data := by
    simp only [change_height, hsep, List.getD_cons_succ, List.getD_cons_zero, hparse, hm,
      ite_true, if_pos]
    decide
  have l1 : find_height_line ("safe".data) 10 false ("c Safe Rod (0% Withdrawn)".data) =
      (["c Safe Rod (10% withdrawn)".data], true) := by decide
  have l3 : find_height_line ("safe".data) 10 true ("c End of Safe Rod".data) = ([], false) := by
    decide
  have l2 : find_height_line ("safe".data) 10 true ("812301 so 5.0 $ near pz".data) =
      (["812301   so   8.8   $ near pz".data], true) := by
    have hhead : ¬ (("812301 so 5.0 $ near pz".data).head? = some 'c') := by decide
    have hcond : ("pz".data <:+: "812301 so 5.0 $ near pz".data)
        ∧ ("812301 so 5.0 $ near pz".data).head? = some '8' := by decide
    simp only [find_height_line, show ¬((true : Bool) = false) by simp, if_neg, if_pos,
      ite_false, hhead, hcond, ite_true, and_true, hch]
    simp [hhead, hch]
  refine ⟨?_, by decide, by decide, by decide, by decide⟩
  show (find_height_lines ("safe".data) 10
      ["c Safe Rod (0% Withdrawn)".data, "812301 so 5.0 $ near pz".data,
        "c End of Safe Rod".data] false).1 = _
  simp only [find_height_lines, l1, l2, l3]
  simp

/--
Claim C4, counterexample.  sep_entries removes the final character of the
line unconditionally, not "only the trailing line terminator": on the
terminator-free line "812301 pz 54.19344" the last token comes back as
"54.1934", losing its final digit, so it differs from the
whitespace-splitting described by the claim.
-/
theorem sep_entries_drops_last_char :
    sep_entries ("812301 pz 54.19344".data) = ["812301".data, "pz".data, "54.1934".data]
    ∧ tokenizeSpec ("812301 pz 54.19344".data) = ["812301".data, "pz".data, "54.19344".data]
    ∧ sep_entries ("812301 pz 54.19344".data) ≠ tokenizeSpec ("812301 pz 54.19344".data) :=
  ⟨by decide, by decide, by decide⟩

/--
Claim C4, amended.  sep_entries drops the final character of its input
unconditionally — the terminator when the line is newline-terminated,
otherwise the last token's last character — and splits on runs of the
space character only (not of arbitrary whitespace).  For a
newline-terminated line it returns exactly the maximal space-free runs of
the body, in order, content preserved, plus one spurious empty final
token when the body is empty or ends in a space; consequently, for any
line whose token list is nonempty, the corresponding single-space
separated line yields the same token sequence.
-/
theorem sep_entries_spec (cs : List Char) :
    sep_entries (cs ++ ['\n']) =
      spaceSplit cs ++ (if cs = [] ∨ cs.getLast? = some ' ' then [[]] else [])
    ∧ (spaceSplit cs ≠ [] →
        sep_entries (joinSep [' '] (spaceSplit cs) ++ ['\n']) = spaceSplit cs) := by
  refine ⟨sep_entries_newline cs, fun hne => ?_⟩
  have hwords : ∀ w ∈ spaceSplit cs, w ≠ [] ∧ ' ' ∉ w := fun w hw => mem_spaceSplit cs w hw
  have hj := joinSep_space_words (spaceSplit cs) hwords hne
  rw [sep_entries_newline (joinSep [' '] (spaceSplit cs))]
  rw [if_neg ?hcond]
  case hcond =>
    intro hor
    rcases hor with h1 | h2
    · exact hj.1 h1
    · exact hj.2 h2
  rw [spaceSplit_joinSep (spaceSplit cs) hwords]
  simp

/-- Witness for the amended C4 theorem on the doubly-spaced line "a  b". -/
theorem sep_entries_spec_witness :
    sep_entries (joinSep [' '] (spaceSplit ("a  b".data)) ++ ['\n']) = spaceSplit ("a  b".data) :=
  (sep_entries_spec ("a  b".data)).2 (by decide)

end Rodcal
